import Mathlib

/-
Verification of the legal-case-search pipeline.

Shallow embedding of the Python sources:
  - src/etl/pdf_extractor.py   (PDFExtractor: fallback extraction chain,
    text cleaning, caption metadata heuristics, batch driver)
  - src/etl/transform.py       (CaseEmbeddingGenerator: embedding-input
    composition, resumable batch embedding loop)
  - src/models/search.py       (LegalCaseSearch: cosine-similarity search,
    search by case id, case details, statistics)
  - src/api/main.py            (the /similar/{case_id} endpoint)

Python strings are modelled as Lean String / List Char (ASCII reading of
the character classes used by the regexes).  Machine floats are modelled
by exact rationals for the stored vectors; the value of a cosine
similarity, which involves a square root, is given meaning in ℝ while the
code-side comparisons are carried out on an exact symbolic form.
MongoDB collections are modelled as lists of documents in natural order.
-/

namespace LegalSearch

/-! ## Python string primitives -/

/-- Python whitespace for the ASCII range: the characters matched by the
regex class \s and by str.split() / str.strip(). -/
def isPySpace (c : Char) : Bool :=
  c = ' ' || c = '\t' || c = '\n' || c = '\r' || c = '\x0b' || c = '\x0c'

/-- ASCII reading of the regex class \w (letters, digits, underscore). -/
def isWordChar (c : Char) : Bool :=
  ('a' ≤ c && c ≤ 'z') || ('A' ≤ c && c ≤ 'Z') || ('0' ≤ c && c ≤ '9') || c = '_'

def isAsciiUpper (c : Char) : Bool := 'A' ≤ c && c ≤ 'Z'

def isAsciiLetter (c : Char) : Bool :=
  ('a' ≤ c && c ≤ 'z') || ('A' ≤ c && c ≤ 'Z')

def isAsciiDigit (c : Char) : Bool := '0' ≤ c && c ≤ '9'

/-- Characters of the regex class [A-Za-z\s] used by the two capture
groups of the case-caption pattern. -/
def isCaptionChar (c : Char) : Bool := isAsciiLetter c || isPySpace c

/-- Python str.split() with no argument: split on whitespace runs,
dropping empty pieces. -/
def pyWordsAux : List Char → List Char → List (List Char)
  | [], [] => []
  | [], acc => [acc.reverse]
  | c :: rest, acc =>
    if isPySpace c then
      match acc with
      | [] => pyWordsAux rest []
      | _ => acc.reverse :: pyWordsAux rest []
    else pyWordsAux rest (c :: acc)

def pyWords (s : String) : List String :=
  (pyWordsAux s.data []).map String.mk

/-- Python len(text.split()). -/
def pyWordCount (s : String) : ℕ := (pyWords s).length

/-- Python str.strip(): drop leading and trailing whitespace. -/
def pyStripList (l : List Char) : List Char :=
  ((l.dropWhile isPySpace).reverse.dropWhile isPySpace).reverse

def pyStrip (s : String) : String := String.mk (pyStripList s.data)

/-- Python " ".join(parts). -/
def joinSpace : List String → String
  | [] => ""
  | [x] => x
  | x :: y :: l => x ++ " " ++ joinSpace (y :: l)

/-! ## PDFExtractor._clean_text (src/etl/pdf_extractor.py, lines 162-166)

The Python body is three re.sub passes followed by str.strip():
  re.sub(r"\s+", " ", text)                          -- collapse whitespace
  re.sub(r"[^\w\s\.,;:\-\(\)\[\]/\'\"]", "", text)   -- char allow-list
  re.sub(r"Page \d+", "", text)                      -- page artifacts
  text.strip()
-/

/-- One left-to-right pass replacing every maximal whitespace run by a
single space; the flag records whether we are inside a run. -/
def collapseWSAux : Bool → List Char → List Char
  | _, [] => []
  | inRun, c :: rest =>
    if isPySpace c then
      if inRun then collapseWSAux true rest
      else ' ' :: collapseWSAux true rest
    else c :: collapseWSAux false rest

def collapseWS (l : List Char) : List Char := collapseWSAux false l

/-- Membership in the allow-list [\w\s\.,;:\-\(\)\[\]/\'\"]. -/
def isAllowedChar (c : Char) : Bool :=
  isWordChar c || isPySpace c ||
    c = '.' || c = ',' || c = ';' || c = ':' || c = '-' || c = '(' || c = ')' ||
    c = '[' || c = ']' || c = '/' || c = '\'' || c = '\"'

def stripDisallowed (l : List Char) : List Char := l.filter isAllowedChar

/-- Attempt to match the tail of "Page \d+" (the part after the leading
'P'): literally "age " followed by one or more digits, digits greedy.
Returns the remainder after the match. -/
def pageTailMatch : List Char → Option (List Char)
  | a :: g :: e :: sp :: r =>
    if a = 'a' ∧ g = 'g' ∧ e = 'e' ∧ sp = ' ' then
      let ds := r.takeWhile isAsciiDigit
      if ds.isEmpty then none else some (r.drop ds.length)
    else none
  | _ => none

/-- re.sub(r"Page \d+", "", ·): scan left to right, removing each
non-overlapping match and continuing after it.  The fuel argument (always
instantiated with the length of the list) makes the recursion
structural; each step consumes at least one character. -/
def removePageAux : ℕ → List Char → List Char
  | 0, l => l
  | _ + 1, [] => []
  | fuel + 1, c :: rest =>
    if c = 'P' then
      match pageTailMatch rest with
      | some rem => removePageAux fuel rem
      | none => c :: removePageAux fuel rest
    else c :: removePageAux fuel rest

def removePage (l : List Char) : List Char := removePageAux l.length l

/-- PDFExtractor._clean_text. -/
def clean_text (s : String) : String :=
  String.mk (pyStripList (removePage (stripDisallowed (collapseWS s.data))))

/-! ## PDFExtractor._extract_metadata, caption part (lines 180-187)

re.search(r"([A-Z][A-Za-z\s]+)\s+(?:vs?\.?|versus)\s+([A-Z][A-Za-z\s]+)",
          text[:1000])
is modelled by a direct implementation of this one pattern with Python's
backtracking order: leftmost starting position first; each greedy piece
tries its longest extent first; the alternation tries vs?\.? (with greedy
optionals, i.e. "vs.", "vs", "v.", "v") before "versus". -/

/-- First success in a preference-ordered list of candidates. -/
def firstSome {α β : Type} (f : α → Option β) : List α → Option β
  | [] => none
  | a :: l =>
    match f a with
    | some b => some b
    | none => firstSome f l

/-- Candidate lengths n, n-1, ..., 1 for a greedy one-or-more piece. -/
def downFrom (n : ℕ) : List ℕ := (List.range n).map (fun i => n - i)

/-- Remainders after (?:vs?\.?|versus), in backtracking preference
order. -/
def vsAlternation : List Char → List (List Char)
  | 'v' :: rest =>
    (match rest with
     | 's' :: r2 =>
       (match r2 with
        | '.' :: r3 => [r3, r2]
        | _ => [r2])
     | _ => []) ++
    (match rest with
     | '.' :: r3 => [r3]
     | _ => []) ++
    [rest] ++
    (match rest with
     | 'e' :: 'r' :: 's' :: 'u' :: 's' :: r => [r]
     | _ => [])
  | _ => []

/-- Try the caption pattern anchored at the head of l, returning the two
capture groups.  Group 2 is greedy with nothing after it, so it takes its
maximal extent. -/
def captionAt (l : List Char) : Option (List Char × List Char) :=
  match l with
  | [] => none
  | c :: rest =>
    if isAsciiUpper c then
      let run := rest.takeWhile isCaptionChar
      firstSome (fun k =>
        let g1 := c :: run.take k
        let after1 := rest.drop k
        let ws1 := after1.takeWhile isPySpace
        firstSome (fun w =>
          let after2 := after1.drop w
          firstSome (fun rem =>
            let ws2 := rem.takeWhile isPySpace
            firstSome (fun w2 =>
              match rem.drop w2 with
              | [] => none
              | d :: r2 =>
                if isAsciiUpper d then
                  let run2 := r2.takeWhile isCaptionChar
                  if run2.isEmpty then none else some (g1, d :: run2)
                else none)
              (downFrom ws2.length))
            (vsAlternation after2))
          (downFrom ws1.length))
        (downFrom run.length)
    else none

/-- re.search: scan starting positions left to right. -/
def captionSearch (l : List Char) : Option (List Char × List Char) :=
  firstSome captionAt l.tails

/-- Caption-derived metadata fields of _extract_metadata: the defaults
are title "Unknown", petitioner None, respondent None; on a match of the
caption pattern over text[:1000] the code sets
  title      = f"{group(1)} vs {group(2)}"   (no strip),
  petitioner = group(1).strip(),
  respondent = group(2).strip(). -/
structure CaptionMeta where
  title : String
  petitioner : Option String
  respondent : Option String
  deriving DecidableEq, Repr

def extract_caption_metadata (text : String) : CaptionMeta :=
  match captionSearch (text.data.take 1000) with
  | some (g1, g2) =>
    { title := String.mk g1 ++ " vs " ++ String.mk g2
      petitioner := some (pyStrip (String.mk g1))
      respondent := some (pyStrip (String.mk g2)) }
  | none => { title := "Unknown", petitioner := none, respondent := none }

/-! ## PDFExtractor._extract_single_pdf and extract_all_pdfs (lines 36-126)

A source PDF is abstracted to its filename stem plus the outcome of each
of the three extraction strategies; `none` models the strategy raising an
exception, `some t` models it returning text t.  Page count is the
independently computed _get_page_count value (already with its
default-0-on-error folded in). -/

structure PdfDoc where
  stem : String
  pymupdfText : Option String
  pdfplumberText : Option String
  pypdf2Text : Option String
  pageCount : ℕ
  deriving DecidableEq, Repr

/-- The recheck guard between strategies and at the end:
Python "not text or len(text.split()) < 200".  text is None when no
strategy has succeeded yet; an empty string is falsy and also has word
count 0, so the two disjuncts collapse to the model below. -/
def lowContent : Option String → Bool
  | none => true
  | some t => pyWordCount t < 200

/-- The record written as the per-case JSON file on success. -/
structure CaseData where
  case_id : String
  raw_text : String
  cleaned_text : String
  extraction_method : Option String
  title : String
  petitioner : Option String
  respondent : Option String
  word_count : ℕ
  char_count : ℕ
  page_count : ℕ
  deriving DecidableEq, Repr

/-- PDFExtractor._extract_single_pdf: the fallback chain with the
final quality gate.  method_used is only reassigned when the strategy
call returns (does not raise), mirroring the try/except structure. -/
def extract_single_pdf (d : PdfDoc) : Except String CaseData :=
  let s1 : Option String × Option String :=
    match d.pymupdfText with
    | some t => (some t, some "pymupdf")
    | none => (none, none)
  let s2 : Option String × Option String :=
    if lowContent s1.1 then
      match d.pdfplumberText with
      | some t => (some t, some "pdfplumber")
      | none => s1
    else s1
  let s3 : Option String × Option String :=
    if lowContent s2.1 then
      match d.pypdf2Text with
      | some t => (some t, some "pypdf2")
      | none => s2
    else s2
  if lowContent s3.1 then .error "Insufficient extracted text"
  else
    let text := s3.1.getD ""
    let cleaned := clean_text text
    let meta := extract_caption_metadata text
    .ok { case_id := d.stem
          raw_text := text
          cleaned_text := cleaned
          extraction_method := s3.2
          title := meta.title
          petitioner := meta.petitioner
          respondent := meta.respondent
          word_count := pyWordCount cleaned
          char_count := cleaned.length
          page_count := d.pageCount }

structure ErrorEntry where
  file : String
  error : String
  deriving DecidableEq, Repr

structure ExtractionStats where
  total : ℕ
  successful : ℕ
  failed : ℕ
  errors : List ErrorEntry
  deriving DecidableEq, Repr

structure ExtractionRun where
  stats : ExtractionStats
  written : List CaseData
  deriving DecidableEq, Repr

/-- The per-file loop body of extract_all_pdfs: on success the JSON
record is written and the success counter bumped, on failure the error
list gets one {file, error} entry and the failure counter is bumped;
either way the loop continues with the next file. -/
def extractStep (r : ExtractionRun) (d : PdfDoc) : ExtractionRun :=
  match extract_single_pdf d with
  | .ok rec =>
    { r with
      stats := { r.stats with successful := r.stats.successful + 1 }
      written := r.written ++ [rec] }
  | .error e =>
    { r with
      stats :=
        { r.stats with
          failed := r.stats.failed + 1
          errors := r.stats.errors ++ [{ file := d.stem ++ ".pdf", error := e }] } }

/-- PDFExtractor.extract_all_pdfs over an already-listed set of files
(limit=None): set stats["total"], then run the loop. -/
def extract_all_pdfs (docs : List PdfDoc) : ExtractionRun :=
  docs.foldl extractStep
    { stats := { total := docs.length, successful := 0, failed := 0, errors := [] }
      written := [] }

/-! ## The cases collection

One document of the MongoDB "cases" collection, with the fields the core
reads or writes.  `none` models an absent field (for the purposes of the
code below an explicit null behaves the same).  The collection itself is
a list in natural order; `oid` models the unique _id. -/

structure CaseDoc where
  oid : ℕ
  case_id : String
  title : Option String := none
  court : Option String := none
  date : Option String := none
  summary : Option String := none
  cleaned_text : Option String := none
  judgment_text : Option String := none
  citations : List String := []
  petitioner : Option String := none
  respondent : Option String := none
  embedding : Option (List ℚ) := none
  embedding_model : Option String := none
  embedding_dim : Option ℕ := none
  embedding_generated_at : Option ℕ := none
  deriving DecidableEq, Repr

/-- Python's `case.get(k) or fallback` for string fields: the fallback is
used when the field is absent or empty. -/
def pyOrStr (a : Option String) (b : String) : String :=
  match a with
  | some s => if s = "" then b else s
  | none => b

/-! ## CaseEmbeddingGenerator (src/etl/transform.py)

_prepare_text_for_embedding (lines 135-171), _process_batch (lines
173-204) and the batching loop of generate_embeddings_batch (lines
53-133, with limit=None).  The sentence-transformer is abstracted as a
function `encode` from a batch of texts to a batch of vectors, and
datetime.now() as the run-constant tag `now`.  Console output, tqdm and
the per-run statistics counters have no effect on the store and are not
modelled; neither is _create_embedding_index, which only adds lookup
indexes. -/

/-- The parts list accumulated by _prepare_text_for_embedding before
joining: the emphasised title (when present and not the default), the
summary (when present), the first 2000 words of the body text (when
present) and the court tag (when present). -/
def prepareParts (c : CaseDoc) : List String :=
  let title := c.title.getD ""
  let parts1 : List String :=
    if title ≠ "" ∧ title ≠ "Unknown"
    then [title ++ ". " ++ title ++ ". " ++ title ++ "."] else []
  let summary := c.summary.getD ""
  let parts2 := if summary ≠ "" then parts1 ++ [summary] else parts1
  let text := pyOrStr c.cleaned_text (c.judgment_text.getD "")
  let parts3 :=
    if text ≠ "" then parts2 ++ [joinSpace ((pyWords text).take 2000)] else parts2
  let court := c.court.getD ""
  if court ≠ "" then parts3 ++ ["Court: " ++ court] else parts3

def prepare_text_for_embedding (c : CaseDoc) : String :=
  let combined := joinSpace (prepareParts c)
  if combined.length > 5000 then combined.take 5000 else combined

/-- The $set fields written back for one embedded case. -/
def writeEmbedding (c : CaseDoc) (v : List ℚ) (now : ℕ) : CaseDoc :=
  { c with
    embedding := some v
    embedding_model := some "all-MiniLM-L6-v2"
    embedding_dim := some 384
    embedding_generated_at := some now }

/-- update_one({_id: id}, {$set: ...}): update the first document whose
_id matches. -/
def updateFirst (store : List CaseDoc) (id : ℕ) (v : List ℚ) (now : ℕ) :
    List CaseDoc :=
  match store with
  | [] => []
  | c :: rest =>
    if c.oid = id then writeEmbedding c v now :: rest
    else c :: updateFirst rest id v now

/-- _process_batch: one model invocation for the whole batch, then one
update per (case_id, embedding) pair of the (truncating) zip. -/
def process_batch (encode : List String → List (List ℚ)) (now : ℕ)
    (texts : List String) (ids : List ℕ) (store : List CaseDoc) :
    List CaseDoc :=
  (ids.zip (encode texts)).foldl
    (fun st p => updateFirst st p.1 p.2 now) store

/-- The cursor loop of generate_embeddings_batch: accumulate
(text, _id) pairs of the selected documents, skipping those whose
prepared text strips to fewer than 50 characters, flushing a full batch
eagerly and the final partial batch after the loop. -/
def genLoop (encode : List String → List (List ℚ)) (now bs : ℕ) :
    List CaseDoc → List String → List ℕ → List CaseDoc → List CaseDoc
  | [], texts, ids, store =>
    if texts.isEmpty then store else process_batch encode now texts ids store
  | c :: rest, texts, ids, store =>
    let text := prepare_text_for_embedding c
    if (pyStrip text).length < 50 then genLoop encode now bs rest texts ids store
    else
      let texts2 := texts ++ [text]
      let ids2 := ids ++ [c.oid]
      if bs ≤ texts2.length then
        genLoop encode now bs rest [] [] (process_batch encode now texts2 ids2 store)
      else genLoop encode now bs rest texts2 ids2 store

/-- The cursor's selection: {"embedding": {"$exists": False}} when
skip_existing, everything otherwise. -/
def selectCases (skip_existing : Bool) (store : List CaseDoc) : List CaseDoc :=
  if skip_existing then store.filter (fun c => c.embedding.isNone) else store

/-- generate_embeddings_batch with limit=None: the resulting state of
the cases collection. -/
def generate_embeddings_batch (encode : List String → List (List ℚ))
    (now bs : ℕ) (skip_existing : Bool) (store : List CaseDoc) :
    List CaseDoc :=
  genLoop encode now bs (selectCases skip_existing store) [] [] store

/-! ## Cosine similarity (sklearn cosine_similarity, used by search.py)

cosine_similarity normalizes each row (rows of norm 0 are left as the
zero vector) and takes dot products, so a score is a / sqrt(X * Y) where
a is the raw dot product and X, Y the squared norms, and 0 when either
norm is 0.  The square root leaves ℚ, so a score is kept symbolically as
the pair (a, X * Y), its exact real value is given by `scoreVal`, and the
float comparisons made when sorting are carried out by the decidable
`scoreLe`, proved below to agree with the real order. -/

def vecDot (xs ys : List ℚ) : ℚ := (List.zipWith (· * ·) xs ys).sum

def normSq (xs : List ℚ) : ℚ := vecDot xs xs

structure Score where
  num : ℚ
  den : ℚ
  den_nonneg : 0 ≤ den

theorem Score.eq_iff {s t : Score} : s = t ↔ s.num = t.num ∧ s.den = t.den := by
  constructor
  · rintro rfl; exact ⟨rfl, rfl⟩
  · rintro ⟨h1, h2⟩; cases s; cases t; simp_all

instance : DecidableEq Score := fun s t =>
  decidable_of_iff (s.num = t.num ∧ s.den = t.den) Score.eq_iff.symm

theorem normSq_nonneg (xs : List ℚ) : 0 ≤ normSq xs := by
  unfold normSq vecDot
  induction xs with
  | nil => simp
  | cons x l ih => simpa using add_nonneg (mul_self_nonneg x) ih

def cosineScore (q v : List ℚ) : Score :=
  ⟨vecDot q v, normSq q * normSq v, mul_nonneg (normSq_nonneg q) (normSq_nonneg v)⟩

/-- The real value of a score. -/
noncomputable def scoreVal (s : Score) : ℝ :=
  if s.den = 0 then 0 else (s.num : ℝ) / Real.sqrt (s.den : ℝ)

/-- Decidable comparison of two score values, by cases on signs, using
only rational arithmetic. -/
def scoreLe (s t : Score) : Bool :=
  if s.den = 0 then (if t.den = 0 then true else decide (0 ≤ t.num))
  else if t.den = 0 then decide (s.num ≤ 0)
  else if 0 ≤ s.num ∧ 0 ≤ t.num then decide (s.num ^ 2 * t.den ≤ t.num ^ 2 * s.den)
  else if s.num ≤ 0 ∧ t.num ≤ 0 then decide (t.num ^ 2 * s.den ≤ s.num ^ 2 * t.den)
  else decide (s.num ≤ 0)

theorem scoreLe_iff (s t : Score) : scoreLe s t = true ↔ scoreVal s ≤ scoreVal t := by
  obtain ⟨a, X, hX⟩ := s
  obtain ⟨b, Y, hY⟩ := t
  simp only [scoreLe, scoreVal]
  by_cases hX0 : X = 0
  · by_cases hY0 : Y = 0
    · simp [hX0, hY0]
    · have hYpos : (0:ℝ) < (Y:ℝ) := by
        exact_mod_cast lt_of_le_of_ne hY (Ne.symm hY0)
      have hs : 0 < Real.sqrt (Y:ℝ) := Real.sqrt_pos.mpr hYpos
      rw [if_pos hX0, if_neg hY0, if_pos hX0, if_neg hY0, decide_eq_true_eq,
        le_div_iff₀ hs]
      simp
  · by_cases hY0 : Y = 0
    · have hXpos : (0:ℝ) < (X:ℝ) := by
        exact_mod_cast lt_of_le_of_ne hX (Ne.symm hX0)
      have hs : 0 < Real.sqrt (X:ℝ) := Real.sqrt_pos.mpr hXpos
      rw [if_neg hX0, if_pos hY0, if_neg hX0, if_pos hY0, decide_eq_true_eq,
        div_le_iff₀ hs]
      simp
    · have hXpos : (0:ℝ) < (X:ℝ) := by
        exact_mod_cast lt_of_le_of_ne hX (Ne.symm hX0)
      have hYpos : (0:ℝ) < (Y:ℝ) := by
        exact_mod_cast lt_of_le_of_ne hY (Ne.symm hY0)
      have hsX : 0 < Real.sqrt (X:ℝ) := Real.sqrt_pos.mpr hXpos
      have hsY : 0 < Real.sqrt (Y:ℝ) := Real.sqrt_pos.mpr hYpos
      have hqX : Real.sqrt (X:ℝ) * Real.sqrt (X:ℝ) = (X:ℝ) :=
        Real.mul_self_sqrt hXpos.le
      have hqY : Real.sqrt (Y:ℝ) * Real.sqrt (Y:ℝ) = (Y:ℝ) :=
        Real.mul_self_sqrt hYpos.le
      rw [if_neg hX0, if_neg hY0, if_neg hX0, if_neg hY0,
        div_le_div_iff₀ hsX hsY]
      by_cases hab : 0 ≤ a ∧ 0 ≤ b
      · have haR : (0:ℝ) ≤ (a:ℝ) := by exact_mod_cast hab.1
        have hbR : (0:ℝ) ≤ (b:ℝ) := by exact_mod_cast hab.2
        rw [if_pos hab, decide_eq_true_eq]
        constructor
        · intro h
          by_contra hlt
          push_neg at hlt
          have h1 : (0:ℝ) ≤ (b:ℝ) * Real.sqrt (X:ℝ) :=
            mul_nonneg hbR hsX.le
          have h2 := mul_self_lt_mul_self h1 hlt
          have h4 : (a:ℝ) ^ 2 * (Y:ℝ) ≤ (b:ℝ) ^ 2 * (X:ℝ) := by
            exact_mod_cast h
          nlinarith [hqX, hqY]
        · intro h
          have h1 : (0:ℝ) ≤ (a:ℝ) * Real.sqrt (Y:ℝ) :=
            mul_nonneg haR hsY.le
          have h2 := mul_self_le_mul_self h1 h
          have h3 : (a:ℝ) ^ 2 * (Y:ℝ) ≤ (b:ℝ) ^ 2 * (X:ℝ) := by
            nlinarith [hqX, hqY]
          exact_mod_cast h3
      · by_cases hab2 : a ≤ 0 ∧ b ≤ 0
        · have haR : (a:ℝ) ≤ 0 := by exact_mod_cast hab2.1
          have hbR : (b:ℝ) ≤ 0 := by exact_mod_cast hab2.2
          rw [if_neg hab, if_pos hab2, decide_eq_true_eq]
          constructor
          · intro h
            by_contra hlt
            push_neg at hlt
            have h1 : (0:ℝ) ≤ -((a:ℝ) * Real.sqrt (Y:ℝ)) := by
              have := mul_nonpos_of_nonpos_of_nonneg haR hsY.le
              linarith
            have hlt2 : -((a:ℝ) * Real.sqrt (Y:ℝ)) < -((b:ℝ) * Real.sqrt (X:ℝ)) := by
              linarith
            have h2 := mul_self_lt_mul_self h1 hlt2
            have h4 : (b:ℝ) ^ 2 * (X:ℝ) ≤ (a:ℝ) ^ 2 * (Y:ℝ) := by
              exact_mod_cast h
            nlinarith [hqX, hqY]
          · intro h
            have h1 : (0:ℝ) ≤ -((b:ℝ) * Real.sqrt (X:ℝ)) := by
              have := mul_nonpos_of_nonpos_of_nonneg hbR hsX.le
              linarith
            have h2 : -((b:ℝ) * Real.sqrt (X:ℝ)) ≤ -((a:ℝ) * Real.sqrt (Y:ℝ)) := by
              linarith
            have h3 := mul_self_le_mul_self h1 h2
            have h4 : (b:ℝ) ^ 2 * (X:ℝ) ≤ (a:ℝ) ^ 2 * (Y:ℝ) := by
              nlinarith [hqX, hqY]
            exact_mod_cast h4
        · have hmix : (a < 0 ∧ 0 < b) ∨ (0 < a ∧ b < 0) := by
            push_neg at hab hab2
            rcases le_or_lt 0 a with h1 | h1
            · rcases lt_or_eq_of_le h1 with hpos | heq
              · exact Or.inr ⟨hpos, hab h1⟩
              · exact absurd (hab2 heq.symm.le) (not_lt.mpr (hab h1).le)
            · exact Or.inl ⟨h1, hab2 h1.le⟩
          rw [if_neg hab, if_neg hab2, decide_eq_true_eq]
          rcases hmix with ⟨ha, hb⟩ | ⟨ha, hb⟩
          · have haR : (a:ℝ) < 0 := by exact_mod_cast ha
            have hbR : (0:ℝ) < (b:ℝ) := by exact_mod_cast hb
            have h1 : (a:ℝ) * Real.sqrt (Y:ℝ) ≤ 0 :=
              mul_nonpos_of_nonpos_of_nonneg haR.le hsY.le
            have h2 : (0:ℝ) ≤ (b:ℝ) * Real.sqrt (X:ℝ) :=
              mul_nonneg hbR.le hsX.le
            exact ⟨fun _ => le_trans h1 h2, fun _ => ha.le⟩
          · have haR : (0:ℝ) < (a:ℝ) := by exact_mod_cast ha
            have hbR : (b:ℝ) < 0 := by exact_mod_cast hb
            have h1 : 0 < (a:ℝ) * Real.sqrt (Y:ℝ) := mul_pos haR hsY
            have h2 : (b:ℝ) * Real.sqrt (X:ℝ) < 0 :=
              mul_neg_of_neg_of_pos hbR hsX
            constructor
            · intro h; exact absurd h (not_le.mpr ha)
            · intro h; linarith

/-- Auxiliary bound for the Cauchy-Schwarz induction step. -/
theorem crossBound (x y d X Y : ℚ) (hX : 0 ≤ X) (hY : 0 ≤ Y)
    (hd : d ^ 2 ≤ X * Y) : 2 * (x * y) * d ≤ x ^ 2 * Y + X * y ^ 2 := by
  rcases eq_or_lt_of_le hY with hY0 | hYpos
  · have hd0 : d ^ 2 = 0 := by
      have h1 : d ^ 2 ≤ 0 := by nlinarith
      exact le_antisymm h1 (sq_nonneg d)
    have : d = 0 := by
      exact pow_eq_zero_iff (n := 2) (by norm_num) |>.mp hd0
    subst this
    nlinarith [mul_nonneg hX (sq_nonneg y)]
  · nlinarith [sq_nonneg (x * Y - d * y),
      mul_nonneg (sub_nonneg.mpr hd) (sq_nonneg y)]

/-- Cauchy-Schwarz for the truncating list dot product, entirely in ℚ. -/
theorem vecDot_sq_le (q v : List ℚ) :
    vecDot q v ^ 2 ≤ normSq q * normSq v := by
  induction q generalizing v with
  | nil => simp [vecDot, normSq]
  | cons x xs ih =>
    cases v with
    | nil =>
      have h1 : vecDot (x :: xs) ([] : List ℚ) = 0 := by simp [vecDot]
      have h2 : normSq ([] : List ℚ) = 0 := by simp [normSq, vecDot]
      rw [h1, h2, mul_zero]
      norm_num
    | cons y ys =>
      have hIH := ih ys
      have hX : 0 ≤ normSq xs := normSq_nonneg xs
      have hY : 0 ≤ normSq ys := normSq_nonneg ys
      have hdot : vecDot (x :: xs) (y :: ys) = x * y + vecDot xs ys := by
        simp [vecDot]
      have hnx : normSq (x :: xs) = x * x + normSq xs := by
        simp [normSq, vecDot]
      have hny : normSq (y :: ys) = y * y + normSq ys := by
        simp [normSq, vecDot]
      rw [hdot, hnx, hny]
      have hcb := crossBound x y (vecDot xs ys) (normSq xs) (normSq ys) hX hY hIH
      nlinarith [hcb, hIH]

/-- Any cosine score has a real value in [-1, 1]. -/
theorem scoreVal_mem_Icc (q v : List ℚ) :
    -1 ≤ scoreVal (cosineScore q v) ∧ scoreVal (cosineScore q v) ≤ 1 := by
  set s := cosineScore q v with hsdef
  have hden : 0 ≤ s.den := s.den_nonneg
  by_cases h0 : s.den = 0
  · simp [scoreVal, h0]
  · have hpos : (0:ℝ) < (s.den : ℝ) := by
      exact_mod_cast lt_of_le_of_ne hden (Ne.symm h0)
    have hsq : s.num ^ 2 ≤ s.den := by
      have := vecDot_sq_le q v
      simpa [hsdef, cosineScore] using this
    have hsqR : (s.num : ℝ) ^ 2 ≤ (s.den : ℝ) := by exact_mod_cast hsq
    have hroot : 0 < Real.sqrt (s.den : ℝ) := Real.sqrt_pos.mpr hpos
    have hmul : Real.sqrt (s.den : ℝ) * Real.sqrt (s.den : ℝ) = (s.den : ℝ) :=
      Real.mul_self_sqrt hpos.le
    have habs : |(s.num : ℝ)| ≤ Real.sqrt (s.den : ℝ) := by
      rw [← Real.sqrt_sq_eq_abs]
      exact Real.sqrt_le_sqrt hsqR
    have h1 : |scoreVal s| ≤ 1 := by
      rw [scoreVal, if_neg h0, abs_div, abs_of_pos hroot, div_le_one hroot]
      exact habs
    exact ⟨neg_le_of_abs_le h1, le_of_abs_le h1⟩

/-! ## The descending ranking (np.argsort(similarities)[::-1][:top_k])

np.argsort is modelled as the stable ascending argsort (ties keep their
index order; this is the canonical deterministic reading, and it is what
numpy computes on the small tie groups relevant here), realised as an
insertion sort of the index list under the antisymmetric total order
"strictly smaller score, or equal score and smaller index".  The code
then reverses the ascending order and truncates to top_k. -/

def zeroScore : Score := ⟨0, 0, le_refl 0⟩

def getScore (sims : List Score) (i : ℕ) : Score := sims.getD i zeroScore

/-- Ascending comparison on indices: by score value, ties by index. -/
def idxLe (sims : List Score) (i j : ℕ) : Bool :=
  scoreLe (getScore sims i) (getScore sims j) &&
    (!scoreLe (getScore sims j) (getScore sims i) || decide (i ≤ j))

theorem idxLe_iff (sims : List Score) (i j : ℕ) :
    idxLe sims i j = true ↔
      scoreVal (getScore sims i) < scoreVal (getScore sims j) ∨
        (scoreVal (getScore sims i) = scoreVal (getScore sims j) ∧ i ≤ j) := by
  have h1 := scoreLe_iff (getScore sims i) (getScore sims j)
  have h2 := scoreLe_iff (getScore sims j) (getScore sims i)
  simp only [idxLe, Bool.and_eq_true, Bool.or_eq_true, Bool.not_eq_true',
    decide_eq_true_eq]
  constructor
  · rintro ⟨hle, hrest | hrest⟩
    · have : ¬ scoreVal (getScore sims j) ≤ scoreVal (getScore sims i) := by
        intro hc
        rw [← h2] at hc
        simp [hc] at hrest
      exact Or.inl (lt_of_le_not_le (h1.mp hle) this)
    · rcases lt_or_eq_of_le (h1.mp hle) with hlt | heq
      · exact Or.inl hlt
      · exact Or.inr ⟨heq, hrest⟩
  · rintro (hlt | ⟨heq, hij⟩)
    · refine ⟨h1.mpr hlt.le, Or.inl ?_⟩
      rw [Bool.eq_false_iff]
      intro hc
      exact absurd (h2.mp hc) (not_le.mpr hlt)
    · exact ⟨h1.mpr heq.le, Or.inr hij⟩

theorem idxLe_total (sims : List Score) (i j : ℕ) :
    idxLe sims i j = true ∨ idxLe sims j i = true := by
  rcases lt_trichotomy (scoreVal (getScore sims i)) (scoreVal (getScore sims j))
    with h | h | h
  · exact Or.inl ((idxLe_iff sims i j).mpr (Or.inl h))
  · rcases Nat.le_total i j with hij | hij
    · exact Or.inl ((idxLe_iff sims i j).mpr (Or.inr ⟨h, hij⟩))
    · exact Or.inr ((idxLe_iff sims j i).mpr (Or.inr ⟨h.symm, hij⟩))
  · exact Or.inr ((idxLe_iff sims j i).mpr (Or.inl h))

theorem idxLe_trans (sims : List Score) (i j k : ℕ)
    (h1 : idxLe sims i j = true) (h2 : idxLe sims j k = true) :
    idxLe sims i k = true := by
  rw [idxLe_iff] at *
  rcases h1 with h1 | ⟨h1e, h1i⟩ <;> rcases h2 with h2 | ⟨h2e, h2i⟩
  · exact Or.inl (lt_trans h1 h2)
  · exact Or.inl (h2e ▸ h1)
  · exact Or.inl (h1e ▸ h2)
  · exact Or.inr ⟨h1e.trans h2e, le_trans h1i h2i⟩

/-- The stable-ascending-argsort order as a Prop-valued relation. -/
def IdxLeRel (sims : List Score) : ℕ → ℕ → Prop :=
  fun i j => idxLe sims i j = true

instance (sims : List Score) : DecidableRel (IdxLeRel sims) :=
  fun i j => inferInstanceAs (Decidable (idxLe sims i j = true))

instance (sims : List Score) : IsTotal ℕ (IdxLeRel sims) :=
  ⟨idxLe_total sims⟩

instance (sims : List Score) : IsTrans ℕ (IdxLeRel sims) :=
  ⟨fun i j k => idxLe_trans sims i j k⟩

/-- Indices ordered by non-increasing similarity. -/
def rankIndices (sims : List Score) : List ℕ :=
  ((List.range sims.length).insertionSort (IdxLeRel sims)).reverse

/-! ## LegalCaseSearch (src/models/search.py)

search_similar_cases (lines 43-86), _create_summary (lines 91-103),
search_by_case_id (lines 108-148), get_case_details (lines 162-171) and
get_statistics (lines 176-188).  The sentence-transformer is the
abstract function `encode`; a Mongo filters dict is abstracted to the
predicate it induces on documents.  The similarity_percentage field is a
pure formatting of similarity_score and is not modelled separately. -/

def emptyCaseDoc : CaseDoc := { oid := 0, case_id := "" }

def create_summary (c : CaseDoc) : String :=
  let text := pyOrStr c.cleaned_text (c.judgment_text.getD "")
  if text = "" then "No summary available"
  else
    let ws := pyWords text
    let summary := joinSpace (ws.take 200)
    if 200 < ws.length then summary ++ "..." else summary

/-- One entry of the list returned by search_similar_cases. -/
structure SearchResult where
  case_id : String
  title : String
  court : String
  date : Option String
  summary : String
  citations : List String
  petitioner : String
  respondent : String
  similarity_score : Score
  deriving DecidableEq

def mkSearchResult (c : CaseDoc) (s : Score) : SearchResult :=
  { case_id := c.case_id
    title := c.title.getD "Unknown"
    court := c.court.getD "Unknown"
    date := c.date
    summary := create_summary c
    citations := c.citations.take 5
    petitioner := c.petitioner.getD ""
    respondent := c.respondent.getD ""
    similarity_score := s }

/-- The candidates loaded by the Mongo query
{"embedding": {"$exists": True}} updated with the optional filters. -/
def searchCandidates (store : List CaseDoc) (filt : Option (CaseDoc → Bool)) :
    List CaseDoc :=
  store.filter (fun c =>
    c.embedding.isSome && (match filt with | some f => f c | none => true))

/-- The similarity scores of the candidates, in retrieval order. -/
def searchSims (qv : List ℚ) (cases : List CaseDoc) : List Score :=
  cases.map (fun c => cosineScore qv (c.embedding.getD []))

def search_similar_cases (encode : String → List ℚ) (store : List CaseDoc)
    (query : String) (top_k : ℕ) (filt : Option (CaseDoc → Bool)) :
    List SearchResult :=
  let qv := encode query
  let cases := searchCandidates store filt
  if cases.isEmpty then []
  else
    let sims := searchSims qv cases
    ((rankIndices sims).take top_k).map (fun i =>
      mkSearchResult (cases.getD i emptyCaseDoc) (getScore sims i))

/-- One entry of the list returned by search_by_case_id (this result
dict carries no petitioner/respondent keys). -/
structure SimilarResult where
  case_id : String
  title : String
  court : String
  date : Option String
  summary : String
  citations : List String
  similarity_score : Score
  deriving DecidableEq

def mkSimilarResult (c : CaseDoc) (s : Score) : SimilarResult :=
  { case_id := c.case_id
    title := c.title.getD "Unknown"
    court := c.court.getD "Unknown"
    date := c.date
    summary := create_summary c
    citations := c.citations.take 5
    similarity_score := s }

/-- The candidates of search_by_case_id:
{"embedding": {"$exists": True}, "case_id": {"$ne": case_id}}. -/
def byIdCandidates (store : List CaseDoc) (cid : String) : List CaseDoc :=
  store.filter (fun c => c.embedding.isSome && !(c.case_id == cid))

def search_by_case_id (store : List CaseDoc) (cid : String) (top_k : ℕ) :
    List SimilarResult :=
  match store.find? (fun c => c.case_id = cid) with
  | none => []
  | some src =>
    match src.embedding with
    | none => []
    | some qv =>
      let cases := byIdCandidates store cid
      if cases.isEmpty then []
      else
        let sims := searchSims qv cases
        ((rankIndices sims).take top_k).map (fun i =>
          mkSimilarResult (cases.getD i emptyCaseDoc) (getScore sims i))

/-! ## The /similar/{case_id} endpoint (src/api/main.py, lines 177-211)

The handler calls search_by_case_id inside a try block; an empty result
raises HTTPException(404, ...), but that raise happens inside the try,
so the catch-all `except Exception` immediately converts it into
HTTPException(500, str(e)).  The library rendering str(e) of the caught
exception is abstracted as the parameter strE. -/

structure SimilarResponse where
  source_case_id : String
  total_results : ℕ
  results : List SimilarResult
  deriving DecidableEq

inductive ApiResult (α : Type) where
  | ok (payload : α)
  | httpError (status : ℕ) (detail : String)
  deriving DecidableEq

def find_similar_cases (strE : ℕ → String → String) (store : List CaseDoc)
    (cid : String) (top_k : ℕ) : ApiResult SimilarResponse :=
  let results := search_by_case_id store cid top_k
  if results.isEmpty then
    .httpError 500 (strE 404 ("No similar cases found for " ++ cid))
  else
    .ok { source_case_id := cid, total_results := results.length, results := results }

/-! ## get_case_details and get_statistics -/

/-- The dict returned by get_case_details: every stored field except the
popped "embedding", with _id rendered as a string. -/
structure CaseDetails where
  idStr : String
  case_id : String
  title : Option String
  court : Option String
  date : Option String
  summary : Option String
  cleaned_text : Option String
  judgment_text : Option String
  citations : List String
  petitioner : Option String
  respondent : Option String
  embedding_model : Option String
  embedding_dim : Option ℕ
  embedding_generated_at : Option ℕ
  deriving DecidableEq, Repr

def detailsOf (c : CaseDoc) : CaseDetails :=
  { idStr := toString c.oid
    case_id := c.case_id
    title := c.title
    court := c.court
    date := c.date
    summary := c.summary
    cleaned_text := c.cleaned_text
    judgment_text := c.judgment_text
    citations := c.citations
    petitioner := c.petitioner
    respondent := c.respondent
    embedding_model := c.embedding_model
    embedding_dim := c.embedding_dim
    embedding_generated_at := c.embedding_generated_at }

def get_case_details (store : List CaseDoc) (cid : String) : Option CaseDetails :=
  (store.find? (fun c => c.case_id = cid)).map detailsOf

structure SearchStats where
  total_cases : ℕ
  searchable_cases : ℕ
  coverage : ℚ
  embedding_model : String
  embedding_dimension : ℕ
  deriving DecidableEq, Repr

/-- get_statistics; the division cases_with_embeddings / total_cases has
no guard in the code, so on an empty collection the Python raises
ZeroDivisionError, modelled as `none`. -/
def get_statistics (store : List CaseDoc) : Option SearchStats :=
  let total := store.length
  let withE := (store.filter (fun c => c.embedding.isSome)).length
  if total = 0 then none
  else some
    { total_cases := total
      searchable_cases := withE
      coverage := (withE : ℚ) / (total : ℚ) * 100
      embedding_model := "all-MiniLM-L6-v2"
      embedding_dimension := 384 }

/-! # Theorems -/

/-! ## C8: the _clean_text contract -/

/-- No two adjacent whitespace characters. -/
def singleSpaced : List Char → Bool
  | [] => true
  | [_] => true
  | a :: b :: rest => !(isPySpace a && isPySpace b) && singleSpaced (b :: rest)

def startsPageArtifact : List Char → Bool
  | [] => false
  | c :: rest => c = 'P' && (pageTailMatch rest).isSome

/-- No "Page <n>" artifact occurs anywhere. -/
def noPageArtifact (l : List Char) : Bool :=
  l.tails.all (fun t => !startsPageArtifact t)

/-- The claim read as properties of the output string: whitespace runs
collapsed, only allow-listed characters, no page artifacts, trimmed. -/
def cleanClaim (s : String) : Prop :=
  singleSpaced (clean_text s).data = true ∧
  (∀ c ∈ (clean_text s).data, isAllowedChar c = true) ∧
  noPageArtifact (clean_text s).data = true ∧
  pyStripList (clean_text s).data = (clean_text s).data

theorem pageTailMatch_suffix {l rem : List Char}
    (h : pageTailMatch l = some rem) : rem <:+ l := by
  match l with
  | [] => simp [pageTailMatch] at h
  | [_] => simp [pageTailMatch] at h
  | [_, _] => simp [pageTailMatch] at h
  | [_, _, _] => simp [pageTailMatch] at h
  | a :: g :: e :: sp :: r =>
    simp only [pageTailMatch] at h
    split at h
    · split at h
      · exact absurd h (by simp)
      · have hrem : rem = r.drop (r.takeWhile isAsciiDigit).length := by
          simpa using h.symm
        subst hrem
        exact (List.drop_suffix _ r).trans
          ⟨[a, g, e, sp], rfl⟩
    · exact absurd h (by simp)

theorem removePageAux_subset :
    ∀ (fuel : ℕ) (l : List Char), ∀ c ∈ removePageAux fuel l, c ∈ l := by
  intro fuel
  induction fuel with
  | zero => intro l c hc; exact hc
  | succ n ih =>
    intro l c hc
    match l with
    | [] => simp [removePageAux] at hc
    | a :: rest =>
      simp only [removePageAux] at hc
      by_cases ha : a = 'P'
      · rw [if_pos ha] at hc
        cases hm : pageTailMatch rest with
        | none =>
          rw [hm] at hc
          rcases List.mem_cons.mp hc with h1 | h1
          · exact List.mem_cons.mpr (Or.inl h1)
          · exact List.mem_cons.mpr (Or.inr (ih rest c h1))
        | some rem =>
          rw [hm] at hc
          exact List.mem_cons.mpr
            (Or.inr ((pageTailMatch_suffix hm).subset (ih rem c hc)))
      · rw [if_neg ha] at hc
        rcases List.mem_cons.mp hc with h1 | h1
        · exact List.mem_cons.mpr (Or.inl h1)
        · exact List.mem_cons.mpr (Or.inr (ih rest c h1))

theorem mem_pyStripList {l : List Char} {c : Char} (h : c ∈ pyStripList l) :
    c ∈ l := by
  unfold pyStripList at h
  rw [List.mem_reverse] at h
  have h2 := (List.dropWhile_suffix isPySpace).subset h
  rw [List.mem_reverse] at h2
  exact (List.dropWhile_suffix isPySpace).subset h2

theorem head?_dropWhile_not (p : Char → Bool) :
    ∀ (l : List Char) (c : Char), (l.dropWhile p).head? = some c → p c = false := by
  intro l
  induction l with
  | nil => simp
  | cons a t ih =>
    intro c h
    by_cases hp : p a
    · rw [List.dropWhile_cons_of_pos hp] at h
      exact ih c h
    · rw [List.dropWhile_cons_of_neg hp] at h
      simp only [List.head?_cons, Option.some.injEq] at h
      rw [← h]
      exact Bool.eq_false_iff.mpr hp

theorem getLast?_of_suffix {l m : List Char} (h : l <:+ m) (hne : l ≠ []) :
    l.getLast? = m.getLast? := by
  obtain ⟨t, rfl⟩ := h
  exact (List.getLast?_append_of_ne_nil t hne).symm

theorem pyStripList_head_not_space {l : List Char} {c : Char}
    (h : (pyStripList l).head? = some c) : isPySpace c = false := by
  unfold pyStripList at h
  rw [List.head?_reverse] at h
  set m1 := l.dropWhile isPySpace with hm1
  cases hx : m1.reverse.dropWhile isPySpace with
  | nil => rw [hx] at h; simp at h
  | cons d rest =>
    have hne : m1.reverse.dropWhile isPySpace ≠ [] := by rw [hx]; simp
    have hsuf := List.dropWhile_suffix (l := m1.reverse) isPySpace
    have hlast := getLast?_of_suffix hsuf hne
    rw [hlast, List.getLast?_reverse] at h
    exact head?_dropWhile_not isPySpace l c h

theorem pyStripList_getLast_not_space {l : List Char} {c : Char}
    (h : (pyStripList l).getLast? = some c) : isPySpace c = false := by
  unfold pyStripList at h
  rw [List.getLast?_reverse] at h
  exact head?_dropWhile_not isPySpace _ c h

/-- C8, counterexample: on "a Page 1 b" the page-number removal merges
the two surrounding blanks, so the cleaned output "a  b" has a
whitespace run of length two and the claimed output contract fails. -/
theorem clean_text_claim_counterexample :
    clean_text "a Page 1 b" = "a  b" ∧ ¬ cleanClaim "a Page 1 b" :=
  ⟨by decide, fun h => absurd h.1 (by decide)⟩

/-- C8 (amended): _clean_text applies, in order, whitespace-run
collapsing, the character allow-list, single-pass page-artifact removal
(which can leave adjacent blanks) and a final trim; every output
character is allow-listed and the output has no leading or trailing
whitespace. -/
theorem clean_text_spec (s : String) :
    clean_text s =
      String.mk (pyStripList (removePage (stripDisallowed (collapseWS s.data)))) ∧
    (∀ c ∈ (clean_text s).data, isAllowedChar c = true) ∧
    (∀ c, (clean_text s).data.head? = some c → isPySpace c = false) ∧
    (∀ c, (clean_text s).data.getLast? = some c → isPySpace c = false) := by
  refine ⟨rfl, ?_, ?_, ?_⟩
  · intro c hc
    have h1 : c ∈ removePage (stripDisallowed (collapseWS s.data)) :=
      mem_pyStripList hc
    have h2 : c ∈ stripDisallowed (collapseWS s.data) :=
      removePageAux_subset _ _ c h1
    exact List.of_mem_filter h2
  · intro c hc
    exact pyStripList_head_not_space hc
  · intro c hc
    exact pyStripList_getLast_not_space hc

/-! ## C5: the caption heuristics on "Ramesh vs Suresh on 4 July 2020" -/

/-- C5, counterexample: the caption text itself is a text containing the
caption within its first 1000 characters, yet the heuristics do not
produce the claimed (title, petitioner, respondent) triple: the second
capture group of the Python pattern greedily extends over the following
letters-and-spaces words. -/
theorem caption_metadata_counterexample :
    extract_caption_metadata "Ramesh vs Suresh on 4 July 2020" ≠
      { title := "Ramesh vs Suresh", petitioner := some "Ramesh",
        respondent := some "Suresh" } := by decide

/-- C5 (amended): on "Ramesh vs Suresh on 4 July 2020" the heuristics
yield title "Ramesh vs Suresh on " (untrimmed, second capture greedily
spanning " on "), petitioner "Ramesh", and respondent "Suresh on". -/
theorem caption_metadata_greedy :
    extract_caption_metadata "Ramesh vs Suresh on 4 July 2020" =
      { title := "Ramesh vs Suresh on ", petitioner := some "Ramesh",
        respondent := some "Suresh on" } := by decide

/-! ## C4: documents failing every extraction strategy -/

/-- The records written by a batch run, in order. -/
def writtenOf (docs : List PdfDoc) : List CaseData :=
  docs.filterMap (fun d => (extract_single_pdf d).toOption)

/-- The error-log entries of a batch run, in order. -/
def errorsOf (docs : List PdfDoc) : List ErrorEntry :=
  docs.filterMap (fun d =>
    match extract_single_pdf d with
    | .error e => some { file := d.stem ++ ".pdf", error := e }
    | .ok _ => none)

theorem foldl_extractStep_spec :
    ∀ (docs : List PdfDoc) (r : ExtractionRun),
      docs.foldl extractStep r =
        { stats :=
            { total := r.stats.total
              successful := r.stats.successful + (writtenOf docs).length
              failed := r.stats.failed + (errorsOf docs).length
              errors := r.stats.errors ++ errorsOf docs }
          written := r.written ++ writtenOf docs } := by
  intro docs
  induction docs with
  | nil => intro r; simp [writtenOf, errorsOf]
  | cons d rest ih =>
    intro r
    rw [List.foldl_cons, ih]
    cases hd : extract_single_pdf d with
    | ok rec =>
      simp only [extractStep, hd, writtenOf, errorsOf, List.filterMap_cons,
        Except.toOption, List.length_cons, List.append_assoc,
        List.singleton_append, ExtractionRun.mk.injEq, ExtractionStats.mk.injEq]
      and_intros <;> first | trivial | omega
    | error e =>
      simp only [extractStep, hd, writtenOf, errorsOf, List.filterMap_cons,
        Except.toOption, List.length_cons, List.append_assoc,
        List.singleton_append, ExtractionRun.mk.injEq, ExtractionStats.mk.injEq]
      and_intros <;> first | trivial | omega

theorem extract_single_insufficient (d : PdfDoc)
    (h1 : lowContent d.pymupdfText = true)
    (h2 : lowContent d.pdfplumberText = true)
    (h3 : lowContent d.pypdf2Text = true) :
    extract_single_pdf d = .error "Insufficient extracted text" := by
  cases hmp : d.pymupdfText <;> cases hpl : d.pdfplumberText <;>
    cases hpy : d.pypdf2Text <;> simp_all [extract_single_pdf]

/-- C4: a document for which each of the three strategies raises or
yields fewer than 200 words fails with "Insufficient extracted text",
no record for it is written, its failure adds exactly one error-log
entry, and the rest of the batch is processed exactly as it would be
without the document. -/
theorem extraction_insufficient_contract (pre post : List PdfDoc) (d : PdfDoc)
    (h1 : lowContent d.pymupdfText = true)
    (h2 : lowContent d.pdfplumberText = true)
    (h3 : lowContent d.pypdf2Text = true) :
    extract_single_pdf d = .error "Insufficient extracted text" ∧
    (extract_all_pdfs (pre ++ d :: post)).written =
      (extract_all_pdfs (pre ++ post)).written ∧
    (extract_all_pdfs (pre ++ d :: post)).stats.errors =
      errorsOf pre ++
        ({ file := d.stem ++ ".pdf", error := "Insufficient extracted text" } :
          ErrorEntry) :: errorsOf post ∧
    (extract_all_pdfs (pre ++ d :: post)).stats.successful =
      (extract_all_pdfs (pre ++ post)).stats.successful := by
  have hfail := extract_single_insufficient d h1 h2 h3
  have hw : writtenOf (pre ++ d :: post) = writtenOf (pre ++ post) := by
    simp [writtenOf, List.filterMap_append, List.filterMap_cons, hfail,
      Except.toOption]
  have he : errorsOf (pre ++ d :: post) =
      errorsOf pre ++
        ({ file := d.stem ++ ".pdf", error := "Insufficient extracted text" } :
          ErrorEntry) :: errorsOf post := by
    simp [errorsOf, List.filterMap_append, List.filterMap_cons, hfail]
  refine ⟨hfail, ?_, ?_, ?_⟩
  · rw [extract_all_pdfs, extract_all_pdfs, foldl_extractStep_spec,
      foldl_extractStep_spec]
    simp [hw]
  · rw [extract_all_pdfs, foldl_extractStep_spec]
    simpa using he
  · rw [extract_all_pdfs, extract_all_pdfs, foldl_extractStep_spec,
      foldl_extractStep_spec]
    simp [hw]

def dBad : PdfDoc :=
  { stem := "bad", pymupdfText := none, pdfplumberText := some "too short",
    pypdf2Text := none, pageCount := 2 }

theorem extraction_insufficient_witness :
    (lowContent dBad.pymupdfText = true ∧
      lowContent dBad.pdfplumberText = true ∧
      lowContent dBad.pypdf2Text = true) ∧
    (extract_single_pdf dBad = .error "Insufficient extracted text" ∧
      (extract_all_pdfs ([] ++ dBad :: [])).written =
        (extract_all_pdfs ([] ++ [])).written ∧
      (extract_all_pdfs ([] ++ dBad :: [])).stats.errors =
        errorsOf [] ++
          ({ file := dBad.stem ++ ".pdf", error := "Insufficient extracted text" } :
            ErrorEntry) :: errorsOf [] ∧
      (extract_all_pdfs ([] ++ dBad :: [])).stats.successful =
        (extract_all_pdfs ([] ++ [])).stats.successful) :=
  ⟨⟨by decide, by decide, by decide⟩,
    extraction_insufficient_contract [] [] dBad (by decide) (by decide) (by decide)⟩

/-! ## C6: the composed embedding input -/

/-- The composition of the spec, with the conditional reading of every
part: a second definition written from the (amended) spec wording, to be
compared with the code-side prepare_text_for_embedding. -/
def prepareTextSpec (c : CaseDoc) : String :=
  let title := c.title.getD ""
  let summary := c.summary.getD ""
  let body := pyOrStr c.cleaned_text (c.judgment_text.getD "")
  let court := c.court.getD ""
  let parts := List.filterMap id
    [ if title ≠ "" ∧ title ≠ "Unknown"
      then some (title ++ ". " ++ title ++ ". " ++ title ++ ".") else none,
      if summary ≠ "" then some summary else none,
      if body ≠ "" then some (joinSpace ((pyWords body).take 2000)) else none,
      if court ≠ "" then some ("Court: " ++ court) else none ]
  let j := joinSpace parts
  if j.length > 5000 then j.take 5000 else j

/-- The composition exactly as the claim states it for a record with a
usable title: the summary is conditional ("if present") but the
2000-word body part and the "Court: <court>" tag are unconditional. -/
def prepareTextClaimed (c : CaseDoc) : String :=
  let title := c.title.getD ""
  let summary := c.summary.getD ""
  let body := pyOrStr c.cleaned_text (c.judgment_text.getD "")
  let court := c.court.getD ""
  let parts :=
    [title ++ ". " ++ title ++ ". " ++ title ++ "."] ++
    (if summary ≠ "" then [summary] else []) ++
    [joinSpace ((pyWords body).take 2000)] ++
    ["Court: " ++ court]
  let j := joinSpace parts
  if j.length > 5000 then j.take 5000 else j

def dNoCourt : CaseDoc :=
  { oid := 7, case_id := "nc", title := some "ABC vs XYZ",
    cleaned_text := some "body words here" }

/-- C6, counterexample: for a record whose court field is absent the
code appends no "Court:" tag at all, so the composed input is not the
sequence the claim describes. -/
theorem prepare_text_claim_counterexample :
    prepare_text_for_embedding dNoCourt =
      "ABC vs XYZ. ABC vs XYZ. ABC vs XYZ. body words here" ∧
    prepareTextClaimed dNoCourt =
      "ABC vs XYZ. ABC vs XYZ. ABC vs XYZ. body words here Court: " ∧
    prepare_text_for_embedding dNoCourt ≠ prepareTextClaimed dNoCourt :=
  ⟨by decide, by decide, by decide⟩

theorem joinSpace_cons_exists (x : String) (l : List String) :
    ∃ rest, joinSpace (x :: l) = x ++ rest := by
  cases l with
  | nil => exact ⟨"", by simp [joinSpace]⟩
  | cons y m =>
    exact ⟨" " ++ joinSpace (y :: m), by simp [joinSpace, String.append_assoc]⟩

/-- C6 (amended): the embedding input equals the space-join of the parts
that are present (title thrice when present and not "Unknown", summary
when non-empty, first 2000 words of the body when non-empty, court tag
when non-empty), hard-truncated to 5000 characters; and whenever the
title part is included, the pre-truncation composition starts with the
title three times, before any body text. -/
theorem prepare_text_spec (c : CaseDoc) :
    prepare_text_for_embedding c = prepareTextSpec c ∧
    (c.title.getD "" ≠ "" ∧ c.title.getD "" ≠ "Unknown" →
      ∃ rest, joinSpace (prepareParts c) =
        c.title.getD "" ++ ". " ++ c.title.getD "" ++ ". " ++
          c.title.getD "" ++ "." ++ rest) := by
  constructor
  · have hp : prepareParts c = List.filterMap id
        [ if c.title.getD "" ≠ "" ∧ c.title.getD "" ≠ "Unknown"
          then some (c.title.getD "" ++ ". " ++ c.title.getD "" ++ ". " ++
            c.title.getD "" ++ ".") else none,
          if c.summary.getD "" ≠ "" then some (c.summary.getD "") else none,
          if pyOrStr c.cleaned_text (c.judgment_text.getD "") ≠ ""
          then some (joinSpace ((pyWords
            (pyOrStr c.cleaned_text (c.judgment_text.getD ""))).take 2000))
          else none,
          if c.court.getD "" ≠ "" then some ("Court: " ++ c.court.getD "")
          else none ] := by
      simp only [prepareParts, List.filterMap]
      split_ifs <;> simp
    simp only [prepare_text_for_embedding, prepareTextSpec, hp]
  · intro h
    have hp : ∃ l, prepareParts c =
        (c.title.getD "" ++ ". " ++ c.title.getD "" ++ ". " ++
          c.title.getD "" ++ ".") :: l := by
      simp only [prepareParts]
      rw [if_pos h]
      split_ifs <;> exact ⟨_, rfl⟩
    obtain ⟨l, hl⟩ := hp
    obtain ⟨rest, hr⟩ := joinSpace_cons_exists
      (c.title.getD "" ++ ". " ++ c.title.getD "" ++ ". " ++
        c.title.getD "" ++ ".") l
    exact ⟨rest, by rw [hl, hr]⟩

theorem prepare_text_spec_witness :
    (dNoCourt.title.getD "" ≠ "" ∧ dNoCourt.title.getD "" ≠ "Unknown") ∧
    (prepare_text_for_embedding dNoCourt = prepareTextSpec dNoCourt ∧
      ∃ rest, joinSpace (prepareParts dNoCourt) =
        dNoCourt.title.getD "" ++ ". " ++ dNoCourt.title.getD "" ++ ". " ++
          dNoCourt.title.getD "" ++ "." ++ rest) :=
  ⟨⟨by decide, by decide⟩,
    (prepare_text_spec dNoCourt).1,
    (prepare_text_spec dNoCourt).2 ⟨by decide, by decide⟩⟩

/-! ## C9: get_statistics on the empty store -/

/-- C9: the coverage computation divides by the total record count with
no zero guard, so get_statistics is defined exactly on non-empty stores
and the empty store gives no result (Python: ZeroDivisionError). -/
theorem get_statistics_empty_fails :
    get_statistics ([] : List CaseDoc) = none ∧
    ∀ store : List CaseDoc, (get_statistics store).isSome ↔ store ≠ [] := by
  refine ⟨rfl, ?_⟩
  intro store
  by_cases h : store = []
  · subst h; simp [get_statistics]
  · have hlen : store.length ≠ 0 := by
      simpa [List.length_eq_zero] using h
    simp [get_statistics, hlen, h]

/-! ## C10: get_case_details hides the embedding -/

/-- C10: get_case_details returns None for an id with no record; for a
found record it returns every stored field unchanged except that the
embedding is removed (the result does not depend on the record's
embedding at all) and the internal _id is rendered as a string. -/
theorem get_case_details_spec (store : List CaseDoc) (cid : String) :
    ((∀ c ∈ store, c.case_id ≠ cid) → get_case_details store cid = none) ∧
    (∀ c, store.find? (fun c => c.case_id = cid) = some c →
      get_case_details store cid = some (detailsOf c) ∧
      (∀ v, detailsOf { c with embedding := v } = detailsOf c) ∧
      (detailsOf c).idStr = toString c.oid ∧
      (detailsOf c).case_id = c.case_id ∧
      (detailsOf c).title = c.title ∧
      (detailsOf c).court = c.court ∧
      (detailsOf c).date = c.date ∧
      (detailsOf c).summary = c.summary ∧
      (detailsOf c).cleaned_text = c.cleaned_text ∧
      (detailsOf c).judgment_text = c.judgment_text ∧
      (detailsOf c).citations = c.citations ∧
      (detailsOf c).petitioner = c.petitioner ∧
      (detailsOf c).respondent = c.respondent ∧
      (detailsOf c).embedding_model = c.embedding_model ∧
      (detailsOf c).embedding_dim = c.embedding_dim ∧
      (detailsOf c).embedding_generated_at = c.embedding_generated_at) := by
  constructor
  · intro h
    unfold get_case_details
    have : store.find? (fun c => c.case_id = cid) = none := by
      rw [List.find?_eq_none]
      intro x hx
      simpa using h x hx
    rw [this]
    rfl
  · intro c hc
    refine ⟨?_, fun v => rfl, rfl, rfl, rfl, rfl, rfl, rfl, rfl, rfl, rfl,
      rfl, rfl, rfl, rfl, rfl⟩
    unfold get_case_details
    rw [hc]
    rfl

def docE : CaseDoc :=
  { oid := 3, case_id := "e", title := some "T", embedding := some [1, 0],
    embedding_model := some "all-MiniLM-L6-v2" }

theorem get_case_details_spec_witness :
    (∀ c ∈ ([docE] : List CaseDoc), c.case_id ≠ "missing") ∧
    get_case_details [docE] "missing" = none ∧
    List.find? (fun c => c.case_id = "e") [docE] = some docE ∧
    (get_case_details [docE] "e" = some (detailsOf docE) ∧
      (∀ v, detailsOf { docE with embedding := v } = detailsOf docE) ∧
      (detailsOf docE).idStr = toString docE.oid ∧
      (detailsOf docE).case_id = docE.case_id ∧
      (detailsOf docE).title = docE.title ∧
      (detailsOf docE).court = docE.court ∧
      (detailsOf docE).date = docE.date ∧
      (detailsOf docE).summary = docE.summary ∧
      (detailsOf docE).cleaned_text = docE.cleaned_text ∧
      (detailsOf docE).judgment_text = docE.judgment_text ∧
      (detailsOf docE).citations = docE.citations ∧
      (detailsOf docE).petitioner = docE.petitioner ∧
      (detailsOf docE).respondent = docE.respondent ∧
      (detailsOf docE).embedding_model = docE.embedding_model ∧
      (detailsOf docE).embedding_dim = docE.embedding_dim ∧
      (detailsOf docE).embedding_generated_at = docE.embedding_generated_at) :=
  ⟨by decide, (get_case_details_spec [docE] "missing").1 (by decide),
    by decide, (get_case_details_spec [docE] "e").2 docE (by decide)⟩

/-! ## C2: not-found versus empty result set -/

def strE0 : ℕ → String → String := fun n d => toString n ++ ": " ++ d

def docX : CaseDoc := { oid := 9, case_id := "x", embedding := some [1, 0] }

def docY : CaseDoc := { oid := 11, case_id := "y" }

/-- C2, counterexample: a store in which the requested id does not exist
and a store in which it exists with a vector but no other embedded
candidate are observably identical, both through search_by_case_id
(empty list) and through the /similar endpoint (same error response):
the two conditions are conflated. -/
theorem search_by_case_id_conflation_counterexample :
    search_by_case_id ([] : List CaseDoc) "x" 10 = search_by_case_id [docX] "x" 10 ∧
    search_by_case_id ([] : List CaseDoc) "x" 10 = [] ∧
    find_similar_cases strE0 [] "x" 10 = find_similar_cases strE0 [docX] "x" 10 :=
  ⟨by decide, by decide, by decide⟩

/-- C2 (amended): a missing id, an id without a stored vector, and a
present id with no matching candidates all produce the same observable
outcome - an empty list from search_by_case_id, and from the
/similar/{case_id} endpoint the same 500 response (the 404 raised for an
empty result is itself caught by the handler's catch-all and re-wrapped
as a 500); no distinct not-found signal exists. -/
theorem search_by_case_id_conflation (store : List CaseDoc) (cid : String)
    (top_k : ℕ) (strE : ℕ → String → String) :
    (store.find? (fun c => c.case_id = cid) = none →
      search_by_case_id store cid top_k = [] ∧
      find_similar_cases strE store cid top_k =
        .httpError 500 (strE 404 ("No similar cases found for " ++ cid))) ∧
    (∀ src, store.find? (fun c => c.case_id = cid) = some src →
      src.embedding = none →
      search_by_case_id store cid top_k = [] ∧
      find_similar_cases strE store cid top_k =
        .httpError 500 (strE 404 ("No similar cases found for " ++ cid))) ∧
    (∀ src qv, store.find? (fun c => c.case_id = cid) = some src →
      src.embedding = some qv →
      byIdCandidates store cid = [] →
      search_by_case_id store cid top_k = [] ∧
      find_similar_cases strE store cid top_k =
        .httpError 500 (strE 404 ("No similar cases found for " ++ cid))) := by
  refine ⟨?_, ?_, ?_⟩
  · intro h
    have hs : search_by_case_id store cid top_k = [] := by
      simp only [search_by_case_id, h]
    exact ⟨hs, by unfold find_similar_cases; rw [hs]; rfl⟩
  · intro src h hemb
    have hs : search_by_case_id store cid top_k = [] := by
      simp only [search_by_case_id, h, hemb]
    exact ⟨hs, by unfold find_similar_cases; rw [hs]; rfl⟩
  · intro src qv h hemb hcand
    have hs : search_by_case_id store cid top_k = [] := by
      simp only [search_by_case_id, h, hemb, hcand, List.isEmpty_nil, if_true]
    exact ⟨hs, by unfold find_similar_cases; rw [hs]; rfl⟩

theorem search_by_case_id_conflation_witness :
    (List.find? (fun c => c.case_id = "x") ([] : List CaseDoc) = none ∧
      (search_by_case_id ([] : List CaseDoc) "x" 10 = [] ∧
        find_similar_cases strE0 [] "x" 10 =
          .httpError 500 (strE0 404 ("No similar cases found for " ++ "x")))) ∧
    (List.find? (fun c => c.case_id = "y") [docY] = some docY ∧
      docY.embedding = none ∧
      (search_by_case_id [docY] "y" 10 = [] ∧
        find_similar_cases strE0 [docY] "y" 10 =
          .httpError 500 (strE0 404 ("No similar cases found for " ++ "y")))) ∧
    (List.find? (fun c => c.case_id = "x") [docX] = some docX ∧
      docX.embedding = some [1, 0] ∧
      byIdCandidates [docX] "x" = [] ∧
      (search_by_case_id [docX] "x" 10 = [] ∧
        find_similar_cases strE0 [docX] "x" 10 =
          .httpError 500 (strE0 404 ("No similar cases found for " ++ "x")))) :=
  ⟨⟨by decide, (search_by_case_id_conflation [] "x" 10 strE0).1 (by decide)⟩,
    ⟨by decide, by decide,
      (search_by_case_id_conflation [docY] "y" 10 strE0).2.1 docY (by decide)
        (by decide)⟩,
    ⟨by decide, by decide, by decide,
      (search_by_case_id_conflation [docX] "x" 10 strE0).2.2 docX [1, 0]
        (by decide) (by decide) (by decide)⟩⟩

/-! ## C3: the searchByText contract -/

theorem rankIndices_pairwise (sims : List Score) :
    (rankIndices sims).Pairwise (fun a b => IdxLeRel sims b a) := by
  unfold rankIndices
  rw [List.pairwise_reverse]
  exact List.sorted_insertionSort (IdxLeRel sims) (List.range sims.length)

theorem getScore_mem_Icc (qv : List ℚ) (cases : List CaseDoc) (i : ℕ) :
    -1 ≤ scoreVal (getScore (searchSims qv cases) i) ∧
      scoreVal (getScore (searchSims qv cases) i) ≤ 1 := by
  unfold getScore
  by_cases hlt : i < (searchSims qv cases).length
  · rw [List.getD_eq_getElem _ _ hlt]
    have hlen : i < cases.length := by
      simpa [searchSims] using hlt
    have : (searchSims qv cases)[i] =
        cosineScore qv ((cases[i]).embedding.getD []) := by
      simp [searchSims]
    rw [this]
    exact scoreVal_mem_Icc qv _
  · rw [List.getD_eq_default _ _ (Nat.le_of_not_lt hlt)]
    have : scoreVal zeroScore = 0 := by simp [scoreVal, zeroScore]
    rw [this]
    norm_num

/-- C3: for every corpus (with well-formed stored vectors), query and
topK, the text search returns at most topK results, ordered by
non-increasing similarity, and every returned similarity score lies in
[-1, 1]. -/
theorem search_similar_cases_spec (encode : String → List ℚ)
    (store : List CaseDoc) (query : String) (top_k : ℕ)
    (filt : Option (CaseDoc → Bool))
    (_hwf : ∀ c ∈ store,
      c.embedding.all (fun e => e.length = (encode query).length) = true) :
    (search_similar_cases encode store query top_k filt).length ≤ top_k ∧
    (search_similar_cases encode store query top_k filt).Pairwise
      (fun r1 r2 =>
        scoreVal r2.similarity_score ≤ scoreVal r1.similarity_score) ∧
    ∀ r ∈ search_similar_cases encode store query top_k filt,
      -1 ≤ scoreVal r.similarity_score ∧ scoreVal r.similarity_score ≤ 1 := by
  unfold search_similar_cases
  by_cases hemp : (searchCandidates store filt).isEmpty
  · simp [hemp]
  · rw [if_neg hemp]
    set cases := searchCandidates store filt with hcases
    set sims := searchSims (encode query) cases with hsims
    refine ⟨?_, ?_, ?_⟩
    · rw [List.length_map, List.length_take]
      exact min_le_left _ _
    · rw [List.pairwise_map]
      have h1 : ((rankIndices sims).take top_k).Pairwise
          (fun a b => IdxLeRel sims b a) :=
        (rankIndices_pairwise sims).sublist (List.take_sublist _ _)
      refine h1.imp ?_
      intro a b hab
      show scoreVal (getScore sims b) ≤ scoreVal (getScore sims a)
      rcases (idxLe_iff sims b a).mp hab with h | h
      · exact le_of_lt h
      · exact le_of_eq h.1
    · intro r hr
      rcases List.mem_map.mp hr with ⟨i, _, rfl⟩
      exact getScore_mem_Icc (encode query) cases i

def encQ : String → List ℚ := fun _ => [1, 0]

def docA : CaseDoc := { oid := 1, case_id := "a", embedding := some [1, 0] }

def docB : CaseDoc := { oid := 2, case_id := "b", embedding := some [1, 0] }

def docC : CaseDoc := { oid := 4, case_id := "c", embedding := some [0, 1] }

theorem search_similar_cases_spec_witness :
    (∀ c ∈ [docA, docB, docC],
      c.embedding.all (fun e => e.length = (encQ "q").length) = true) ∧
    ((search_similar_cases encQ [docA, docB, docC] "q" 2 none).length ≤ 2 ∧
      (search_similar_cases encQ [docA, docB, docC] "q" 2 none).Pairwise
        (fun r1 r2 =>
          scoreVal r2.similarity_score ≤ scoreVal r1.similarity_score) ∧
      ∀ r ∈ search_similar_cases encQ [docA, docB, docC] "q" 2 none,
        -1 ≤ scoreVal r.similarity_score ∧ scoreVal r.similarity_score ≤ 1) :=
  ⟨by decide,
    search_similar_cases_spec encQ [docA, docB, docC] "q" 2 none (by decide)⟩

/-! ## C1: tie order among equal similarity scores -/

/-- C1, counterexample: two candidates with identical embeddings receive
equal similarity scores, the retrieval order is [a, b], yet the search
returns [b, a]: np.argsort ascending followed by [::-1] reverses tie
groups, so ties are NOT broken by original retrieval order. -/
theorem search_tie_order_counterexample :
    (search_similar_cases encQ [docA, docB] "q" 10 none).map
      (fun r => r.case_id) = ["b", "a"] ∧
    scoreVal (getScore (searchSims (encQ "q")
        (searchCandidates [docA, docB] none)) 0) =
      scoreVal (getScore (searchSims (encQ "q")
        (searchCandidates [docA, docB] none)) 1) := by
  constructor
  · norm_num [search_similar_cases, searchCandidates, searchSims, encQ, docA,
      docB, rankIndices, List.insertionSort, List.orderedInsert, IdxLeRel,
      idxLe, getScore, scoreLe, cosineScore, vecDot, normSq, emptyCaseDoc,
      mkSearchResult, zeroScore]
  · rfl

theorem rankIndices_perm (sims : List Score) :
    (rankIndices sims).Perm (List.range sims.length) := by
  unfold rankIndices
  exact (List.reverse_perm _).trans (List.perm_insertionSort _ _)

theorem rankIndices_nodup (sims : List Score) : (rankIndices sims).Nodup :=
  (rankIndices_perm sims).nodup_iff.mpr (List.nodup_range _)

theorem mem_rankIndices (sims : List Score) (i : ℕ) :
    i ∈ rankIndices sims ↔ i < sims.length := by
  rw [(rankIndices_perm sims).mem_iff, List.mem_range]

/-- C1 (amended): the ranking is the stable ascending argsort reversed,
so among candidates with equal similarity scores the LATER-retrieved one
is ranked first (ties are broken by reverse retrieval order, with no
secondary key), and the returned list is the top_k prefix of this
ranking mapped onto result records. -/
theorem search_tie_order (encode : String → List ℚ) (store : List CaseDoc)
    (query : String) (top_k : ℕ) (filt : Option (CaseDoc → Bool)) (i j : ℕ)
    (hij : i < j)
    (hjlt : j < (searchCandidates store filt).length)
    (htie : scoreVal (getScore (searchSims (encode query)
        (searchCandidates store filt)) i) =
      scoreVal (getScore (searchSims (encode query)
        (searchCandidates store filt)) j)) :
    (rankIndices (searchSims (encode query)
        (searchCandidates store filt))).indexOf j <
      (rankIndices (searchSims (encode query)
        (searchCandidates store filt))).indexOf i ∧
    search_similar_cases encode store query top_k filt =
      ((rankIndices (searchSims (encode query)
          (searchCandidates store filt))).take top_k).map
        (fun m => mkSearchResult
          ((searchCandidates store filt).getD m emptyCaseDoc)
          (getScore (searchSims (encode query)
            (searchCandidates store filt)) m)) := by
  set cases := searchCandidates store filt with hcases
  set sims := searchSims (encode query) cases with hsims
  have hslen : sims.length = cases.length := by
    simp [hsims, searchSims]
  have hjn : j < sims.length := by rw [hslen]; exact hjlt
  have hin : i < sims.length := lt_trans hij hjn
  have hich : i ∈ rankIndices sims := (mem_rankIndices sims i).mpr hin
  have hjch : j ∈ rankIndices sims := (mem_rankIndices sims j).mpr hjn
  have hpi := List.indexOf_lt_length.mpr hich
  have hpj := List.indexOf_lt_length.mpr hjch
  have hgi : (rankIndices sims)[(rankIndices sims).indexOf i] = i :=
    List.getElem_indexOf hpi
  have hgj : (rankIndices sims)[(rankIndices sims).indexOf j] = j :=
    List.getElem_indexOf hpj
  constructor
  · rcases lt_trichotomy ((rankIndices sims).indexOf j)
      ((rankIndices sims).indexOf i) with h | h | h
    · exact h
    · exfalso
      have : j = i := (List.indexOf_inj hjch hich).mp h
      omega
    · exfalso
      have hrel := List.pairwise_iff_get.mp (rankIndices_pairwise sims)
        ⟨(rankIndices sims).indexOf i, hpi⟩
        ⟨(rankIndices sims).indexOf j, hpj⟩ h
      simp only [List.get_eq_getElem, hgi, hgj] at hrel
      rcases (idxLe_iff sims j i).mp hrel with hlt | ⟨_, hle⟩
      · rw [htie] at hlt
        exact lt_irrefl _ hlt
      · omega
  · have hne0 : cases ≠ [] := by
      intro h
      rw [h] at hjlt
      simp at hjlt
    have hne : ¬ (cases.isEmpty = true) := by
      simpa [List.isEmpty_iff] using hne0
    unfold search_similar_cases
    rw [← hcases, if_neg hne, ← hsims]

theorem search_tie_order_witness :
    (0 < 1 ∧ 1 < (searchCandidates [docA, docB] none).length ∧
      scoreVal (getScore (searchSims (encQ "q")
          (searchCandidates [docA, docB] none)) 0) =
        scoreVal (getScore (searchSims (encQ "q")
          (searchCandidates [docA, docB] none)) 1)) ∧
    ((rankIndices (searchSims (encQ "q")
        (searchCandidates [docA, docB] none))).indexOf 1 <
      (rankIndices (searchSims (encQ "q")
        (searchCandidates [docA, docB] none))).indexOf 0 ∧
    search_similar_cases encQ [docA, docB] "q" 10 none =
      ((rankIndices (searchSims (encQ "q")
          (searchCandidates [docA, docB] none))).take 10).map
        (fun m => mkSearchResult
          ((searchCandidates [docA, docB] none).getD m emptyCaseDoc)
          (getScore (searchSims (encQ "q")
            (searchCandidates [docA, docB] none)) m))) :=
  ⟨⟨by decide, by decide, rfl⟩,
    search_tie_order encQ [docA, docB] "q" 10 none 0 1 (by decide) (by decide)
      rfl⟩

/-! ## C7: resume mode touches nothing on a second run -/

/-- The skip condition of the cursor loop. -/
def embedSkipped (c : CaseDoc) : Bool :=
  decide ((pyStrip (prepare_text_for_embedding c)).length < 50)

theorem writeEmbedding_oid (c : CaseDoc) (v : List ℚ) (now : ℕ) :
    (writeEmbedding c v now).oid = c.oid := rfl

theorem updateFirst_eq_map (store : List CaseDoc) (id : ℕ) (v : List ℚ)
    (now : ℕ) (h : (store.map (fun c => c.oid)).Nodup) :
    updateFirst store id v now =
      store.map (fun c => if c.oid = id then writeEmbedding c v now else c) := by
  induction store with
  | nil => rfl
  | cons c rest ih =>
    simp only [List.map_cons, List.nodup_cons] at h
    obtain ⟨hnotin, hrest⟩ := h
    unfold updateFirst
    by_cases hc : c.oid = id
    · rw [if_pos hc, List.map_cons, if_pos hc]
      congr 1
      have hpt : ∀ x ∈ rest,
          (if x.oid = id then writeEmbedding x v now else x) = x := by
        intro x hx
        rw [if_neg]
        intro he
        exact hnotin (List.mem_map.mpr ⟨x, hx, by rw [he, hc]⟩)
      rw [List.map_congr_left hpt]
      exact (List.map_id' rest).symm
    · rw [if_neg hc, List.map_cons, if_neg hc, ih hrest]

theorem map_write_oids (store : List CaseDoc) (g : CaseDoc → CaseDoc)
    (hg : ∀ c, (g c).oid = c.oid) :
    (store.map g).map (fun c => c.oid) = store.map (fun c => c.oid) := by
  rw [List.map_map]
  exact List.map_congr_left (fun c _ => hg c)

theorem foldl_updateFirst_spec (now : ℕ) :
    ∀ (pairs : List (ℕ × List ℚ)) (store : List CaseDoc),
      (store.map (fun c => c.oid)).Nodup →
      ∃ f : ℕ → List ℚ,
        pairs.foldl (fun st p => updateFirst st p.1 p.2 now) store =
          store.map (fun c =>
            if c.oid ∈ pairs.map Prod.fst then writeEmbedding c (f c.oid) now
            else c) := by
  intro pairs
  induction pairs with
  | nil =>
    intro store _
    exact ⟨fun _ => [], by simp⟩
  | cons p rest ih =>
    intro store hn
    rw [List.foldl_cons, updateFirst_eq_map store p.1 p.2 now hn]
    have hg1 : ∀ c : CaseDoc,
        ((fun c => if c.oid = p.1 then writeEmbedding c p.2 now else c) c).oid
          = c.oid := by
      intro c
      by_cases hc : c.oid = p.1 <;> simp [hc, writeEmbedding_oid]
    have hn' : ((store.map
        (fun c => if c.oid = p.1 then writeEmbedding c p.2 now else c)).map
          (fun c => c.oid)).Nodup := by
      rw [map_write_oids _ _ hg1]
      exact hn
    obtain ⟨f, hf⟩ := ih _ hn'
    refine ⟨fun o => if o ∈ rest.map Prod.fst then f o else p.2, ?_⟩
    rw [hf, List.map_map]
    refine List.map_congr_left ?_
    intro c _
    simp only [Function.comp_apply, List.map_cons, List.mem_cons]
    by_cases h1 : c.oid = p.1
    · by_cases h2 : p.1 ∈ rest.map Prod.fst <;> simp [h1, h2, writeEmbedding]
    · by_cases h2 : c.oid ∈ rest.map Prod.fst <;> simp [h1, h2, writeEmbedding]

theorem process_batch_spec (encode : List String → List (List ℚ)) (now : ℕ)
    (texts : List String) (ids : List ℕ) (store : List CaseDoc)
    (hn : (store.map (fun c => c.oid)).Nodup)
    (hlen : ids.length ≤ (encode texts).length) :
    ∃ f : ℕ → List ℚ,
      process_batch encode now texts ids store =
        store.map (fun c =>
          if c.oid ∈ ids then writeEmbedding c (f c.oid) now else c) := by
  obtain ⟨f, hf⟩ := foldl_updateFirst_spec now (ids.zip (encode texts)) store hn
  refine ⟨f, ?_⟩
  rw [process_batch, hf, List.map_fst_zip _ _ hlen]

theorem map_write_append (store : List CaseDoc) (S1 S2 : List ℕ)
    (f1 f2 : ℕ → List ℚ) (now : ℕ) :
    (store.map (fun c =>
        if c.oid ∈ S1 then writeEmbedding c (f1 c.oid) now else c)).map
      (fun c => if c.oid ∈ S2 then writeEmbedding c (f2 c.oid) now else c) =
    store.map (fun c =>
      if c.oid ∈ S1 ++ S2 then
        writeEmbedding c (if c.oid ∈ S2 then f2 c.oid else f1 c.oid) now
      else c) := by
  rw [List.map_map]
  refine List.map_congr_left ?_
  intro c _
  simp only [Function.comp_apply, List.mem_append]
  by_cases h1 : c.oid ∈ S1 <;> by_cases h2 : c.oid ∈ S2 <;>
    simp [h1, h2, writeEmbedding_oid, writeEmbedding]

set_option maxHeartbeats 2000000 in
theorem genLoop_spec (encode : List String → List (List ℚ)) (now bs : ℕ)
    (harity : ∀ ts, (encode ts).length = ts.length) :
    ∀ (rem : List CaseDoc) (texts : List String) (ids : List ℕ)
      (store : List CaseDoc),
      (store.map (fun c => c.oid)).Nodup →
      ids.length = texts.length →
      ∃ f : ℕ → List ℚ,
        genLoop encode now bs rem texts ids store =
          store.map (fun c =>
            if c.oid ∈ ids ++
                (rem.filter (fun d => !embedSkipped d)).map (fun d => d.oid)
            then writeEmbedding c (f c.oid) now else c) := by
  intro rem
  induction rem with
  | nil =>
    intro texts ids store hn hlen
    unfold genLoop
    by_cases ht : texts.isEmpty
    · have htx : texts = [] := List.isEmpty_iff.mp ht
      subst htx
      have hids : ids = [] := List.length_eq_zero.mp hlen
      subst hids
      exact ⟨fun _ => [], by simp⟩
    · rw [if_neg ht]
      have hle : ids.length ≤ (encode texts).length := by
        rw [harity texts, hlen]
      obtain ⟨f, hf⟩ := process_batch_spec encode now texts ids store hn hle
      exact ⟨f, by simpa using hf⟩
  | cons c rest ih =>
    intro texts ids store hn hlen
    simp only [genLoop]
    by_cases hs : (pyStrip (prepare_text_for_embedding c)).length < 50
    · rw [if_pos hs]
      obtain ⟨f, hf⟩ := ih texts ids store hn hlen
      refine ⟨f, ?_⟩
      rw [hf]
      have hfil : List.filter (fun d => !embedSkipped d) (c :: rest) =
          List.filter (fun d => !embedSkipped d) rest := by
        rw [List.filter_cons_of_neg]
        simp [embedSkipped, hs]
      rw [hfil]
    · rw [if_neg hs]
      have hfil : List.filter (fun d => !embedSkipped d) (c :: rest) =
          c :: List.filter (fun d => !embedSkipped d) rest := by
        rw [List.filter_cons_of_pos]
        simp [embedSkipped, hs]
      by_cases hb : bs ≤ (texts ++ [prepare_text_for_embedding c]).length
      · rw [if_pos hb]
        have hlen2 : (ids ++ [c.oid]).length ≤
            (encode (texts ++ [prepare_text_for_embedding c])).length := by
          rw [harity]
          simp [hlen]
        obtain ⟨f1, hf1⟩ := process_batch_spec encode now
          (texts ++ [prepare_text_for_embedding c]) (ids ++ [c.oid]) store hn
          hlen2
        have hg1 : ∀ x : CaseDoc,
            ((fun x => if x.oid ∈ ids ++ [c.oid]
              then writeEmbedding x (f1 x.oid) now else x) x).oid = x.oid := by
          intro x
          by_cases hx : x.oid ∈ ids ++ [c.oid] <;>
            simp [hx, writeEmbedding_oid]
        have hn' : ((process_batch encode now
            (texts ++ [prepare_text_for_embedding c]) (ids ++ [c.oid])
            store).map (fun c => c.oid)).Nodup := by
          rw [hf1, map_write_oids _ _ hg1]
          exact hn
        obtain ⟨f2, hf2⟩ := ih [] []
          (process_batch encode now (texts ++ [prepare_text_for_embedding c])
            (ids ++ [c.oid]) store) hn' rfl
        refine ⟨fun o =>
          if o ∈ (rest.filter (fun d => !embedSkipped d)).map (fun d => d.oid)
          then f2 o else f1 o, ?_⟩
        rw [hf2, hf1]
        simp only [List.nil_append]
        rw [map_write_append, hfil]
        simp only [List.map_cons, List.append_assoc, List.singleton_append]
      · rw [if_neg hb]
        obtain ⟨f, hf⟩ := ih (texts ++ [prepare_text_for_embedding c])
          (ids ++ [c.oid]) store hn (by simp [hlen])
        refine ⟨f, ?_⟩
        rw [hf, hfil]
        simp only [List.map_cons, List.append_assoc, List.singleton_append]

theorem genLoop_all_skip (encode : List String → List (List ℚ)) (now bs : ℕ) :
    ∀ (l : List CaseDoc) (store : List CaseDoc),
      (∀ c ∈ l, (pyStrip (prepare_text_for_embedding c)).length < 50) →
      genLoop encode now bs l [] [] store = store := by
  intro l
  induction l with
  | nil => intro store _; simp [genLoop]
  | cons c rest ih =>
    intro store h
    simp only [genLoop]
    rw [if_pos (h c (List.mem_cons_self c rest))]
    exact ih store (fun x hx => h x (List.mem_cons_of_mem c hx))

/-- C7: after a completed resume run (no batch failures: the encoder is
total and returns one vector per text), a second resume run writes
nothing: its selection is exactly the records still lacking an embedding
field, every record embedded by the first run is excluded from it, and
the store is left untouched. -/
theorem resume_second_run_noop (encode : List String → List (List ℚ))
    (now1 now2 bs : ℕ) (store : List CaseDoc)
    (harity : ∀ ts, (encode ts).length = ts.length)
    (hnodup : (store.map (fun c => c.oid)).Nodup) :
    generate_embeddings_batch encode now2 bs true
        (generate_embeddings_batch encode now1 bs true store) =
      generate_embeddings_batch encode now1 bs true store ∧
    selectCases true (generate_embeddings_batch encode now1 bs true store) =
      (generate_embeddings_batch encode now1 bs true store).filter
        (fun c => c.embedding.isNone) ∧
    ∀ c ∈ generate_embeddings_batch encode now1 bs true store,
      c.embedding.isSome = true →
      c ∉ selectCases true (generate_embeddings_batch encode now1 bs true store) := by
  obtain ⟨f, hf⟩ := genLoop_spec encode now1 bs harity
    (selectCases true store) [] [] store hnodup rfl
  have hskip : ∀ c' ∈ generate_embeddings_batch encode now1 bs true store,
      c'.embedding = none →
      (pyStrip (prepare_text_for_embedding c')).length < 50 := by
    intro c' hc' hnone
    rw [generate_embeddings_batch, hf] at hc'
    obtain ⟨c, hcs, hceq⟩ := List.mem_map.mp hc'
    by_cases hm : c.oid ∈ [] ++
        ((selectCases true store).filter
          (fun d => !embedSkipped d)).map (fun d => d.oid)
    · rw [if_pos hm] at hceq
      rw [← hceq] at hnone
      simp [writeEmbedding] at hnone
    · rw [if_neg hm] at hceq
      subst hceq
      by_contra hbig
      apply hm
      simp only [List.nil_append]
      refine List.mem_map.mpr ⟨c, ?_, rfl⟩
      refine List.mem_filter.mpr ⟨?_, ?_⟩
      · unfold selectCases
        rw [if_pos rfl]
        exact List.mem_filter.mpr ⟨hcs, by simp [hnone]⟩
      · simp [embedSkipped, hbig]
  refine ⟨?_, rfl, ?_⟩
  · have hsel : ∀ c ∈ selectCases true
        (generate_embeddings_batch encode now1 bs true store),
        (pyStrip (prepare_text_for_embedding c)).length < 50 := by
      intro c hc
      have hmf : c ∈ generate_embeddings_batch encode now1 bs true store ∧
          c.embedding = none := by
        simpa [selectCases, List.mem_filter, Option.isNone_iff_eq_none]
          using hc
      exact hskip c hmf.1 hmf.2
    exact genLoop_all_skip encode now2 bs _ _ hsel
  · intro c hc hsome hmem
    have hmf : c ∈ generate_embeddings_batch encode now1 bs true store ∧
        c.embedding = none := by
      simpa [selectCases, List.mem_filter, Option.isNone_iff_eq_none]
        using hmem
    rw [hmf.2] at hsome
    simp at hsome

def encConst : List String → List (List ℚ) := fun ts => ts.map (fun _ => [1])

def docN : CaseDoc :=
  { oid := 21, case_id := "n",
    cleaned_text :=
      some "this is a sufficiently long judgment text used for the resume mode witness case" }

theorem resume_second_run_noop_witness :
    ((∀ ts, (encConst ts).length = ts.length) ∧
      (([docN] : List CaseDoc).map (fun c => c.oid)).Nodup) ∧
    (generate_embeddings_batch encConst 1 32 true
        (generate_embeddings_batch encConst 0 32 true [docN]) =
      generate_embeddings_batch encConst 0 32 true [docN] ∧
      selectCases true (generate_embeddings_batch encConst 0 32 true [docN]) =
        (generate_embeddings_batch encConst 0 32 true [docN]).filter
          (fun c => c.embedding.isNone) ∧
      ∀ c ∈ generate_embeddings_batch encConst 0 32 true [docN],
        c.embedding.isSome = true →
        c ∉ selectCases true
          (generate_embeddings_batch encConst 0 32 true [docN])) :=
  ⟨⟨fun ts => by simp [encConst], by decide⟩,
    resume_second_run_noop encConst 0 1 32 [docN]
      (fun ts => by simp [encConst]) (by decide)⟩

end LegalSearch
